import Mathlib

/-!
Verification of the tabular aggregation and reporting pipeline of the
Centaurus post-trade analyzer.

The development shallowly embeds the data-shaping functions of the
repository:

* `build_eod_df`   — `sheets/end_of_day.py` / `sheets/report.py`,
  `_build_eod_df`: the end-of-day reduction (last row per
  `(instrument, day)` group).
* `sanitize_visible_cols`, `build_display_cache` — `utils/table_utils.py`.
* `flag_cols`      — `utils/schema.py`.
* `build_report`   — `sheets/report.py`, `_build_report_table_ceo_deluxe`.

Pandas data frames are modelled as lists of typed rows plus an explicit
list of column names; machine floats are modelled as rationals; missing
values (`NaN`/`NaT`/`NA`) as `Option`/dedicated constructors.  Pandas
stable sorts (`kind="mergesort"`, and the tie handling of
`nlargest`/`nsmallest` with `keep="first"`) are modelled with the stable
`List.mergeSort`.
-/

namespace Centaurus

/- The library marks the rational-number arithmetic irreducible; restore
reducibility locally so that concrete counterexamples and witnesses can be
evaluated by `decide`. -/
attribute [local semireducible] Rat.add Rat.mul Rat.sub Rat.inv

/-! ### Numeric helpers: floor, truncation and half-even rounding

`ratFloor` is `⌊q⌋` computed on the normalised representation;
`truncQ` models Python's `int(...)` (truncation toward zero);
`rhe` models `round(...)` / numpy `Series.round(0)` (round half to even).
-/

def ratFloor (q : Rat) : Int := q.num.ediv q.den

def ratCeil (q : Rat) : Int := -(ratFloor (-q))

def truncQ (q : Rat) : Int := if 0 ≤ q then ratFloor q else ratCeil q

def rhe (q : Rat) : Int :=
  let f := ratFloor q
  let r := q - (f : Rat)
  if r < 1/2 then f
  else if 1/2 < r then f + 1
  else if f % 2 = 0 then f else f + 1

/-! ### Generic list helper: keep the last row of each key group

`lastPerKey key l` keeps, in order, each element of `l` that is the last
element carrying its key.  This is exactly what
`groupby(keys, sort=False).tail(1)` does to a data frame: it selects, in
frame order, the final member of every key group.
-/

def lastPerKey {α κ : Type} [DecidableEq κ] (key : α → κ) : List α → List α
  | [] => []
  | x :: xs =>
    if xs.any (fun y => decide (key y = key x)) then lastPerKey key xs
    else x :: lastPerKey key xs

/-! ### End-of-day reduction (`_build_eod_df`)

A trade row carries the two structural columns the reduction reads
(`instrument`, `tradeTime`); `payload` stands for all remaining columns,
which the reduction copies through untouched.  A timestamp is a calendar
day (as a day number) plus a time of day; `tradeTime.dt.date` is the
`day` projection.
-/

structure Ts where
  day : Int
  tod : Nat
deriving DecidableEq

structure TradeRow where
  payload : Nat
  instrument : String
  tradeTime : Ts
deriving DecidableEq

structure TradeTable where
  cols : List String
  rows : List TradeRow
deriving DecidableEq

/-- Grouping key of the reduction: `(instrument, day(tradeTime))`. -/
def eodKey (r : TradeRow) : String × Int := (r.instrument, r.tradeTime.day)

/-- Timestamp order (Boolean form), day-major. -/
def tsLeB (a b : Ts) : Bool :=
  decide (a.day < b.day) || (decide (a.day = b.day) && decide (a.tod ≤ b.tod))

/-- Timestamp order (propositional form). -/
def tsLe (a b : Ts) : Prop :=
  a.day < b.day ∨ (a.day = b.day ∧ a.tod ≤ b.tod)

/-- Comparator of `sort_values(["instrument", "_day", "tradeTime"], kind="mergesort")`:
lexicographic on instrument, derived day, then full timestamp. -/
def eodLe (a b : TradeRow) : Bool :=
  decide (a.instrument < b.instrument) ||
  (decide (a.instrument = b.instrument) &&
    (decide (a.tradeTime.day < b.tradeTime.day) ||
      (decide (a.tradeTime.day = b.tradeTime.day) && tsLeB a.tradeTime b.tradeTime)))

/-- An output row of the reduction: a source row with the derived `_day`
key renamed to a new `day` column. -/
structure EodRow where
  row : TradeRow
  day : Int
deriving DecidableEq

/-- `EndOfDaySheet._build_eod_df` / `ReportSheet._build_eod_df`: `None` for an
absent or empty frame or missing structural columns; otherwise stable-sort by
`(instrument, _day, tradeTime)`, keep the last row of each `(instrument, _day)`
group, and expose the derived day as `day`. -/
def build_eod_df (df : Option TradeTable) : Option (List EodRow) :=
  match df with
  | none => none
  | some t =>
    if t.rows = [] ∨ t.cols = [] then none
    else if "instrument" ∉ t.cols ∨ "tradeTime" ∉ t.cols then none
    else some ((lastPerKey eodKey (t.rows.mergeSort eodLe)).map
      (fun r => { row := r, day := r.tradeTime.day }))

/-! ### Column selection (`table_utils.sanitize_visible_cols`)

`visible_cols` is `Optional[List[str]]`; both `None` and `[]` are falsy in
`if not visible_cols`, so both fall back to a copy of `all_cols`.
-/

def sanitize_visible_cols (all_cols : List String) (visible_cols : Option (List String)) :
    List String :=
  match visible_cols with
  | none => all_cols
  | some v =>
    if v = [] then all_cols
    else v.filter (fun c => decide (c ∈ all_cols))

/-! ### Display cache (`table_utils.build_display_cache`)

A cell value is a timestamp, a number, a Boolean, a string, or missing
(`NaN`/`NaT`/`NA`, for which `pd.isna` is true).  A column records its
name, whether its dtype is numeric (`pd.api.types.is_numeric_dtype`), and
its cells.  Converting a value of one runtime type through another
branch's coercion (`pd.Timestamp(v)`, `int(v)`, `bool(v)`, `float(v)`,
`str(v)`) is modelled by total conversion functions; the defaults used
for type mixes that pandas would reject are immaterial to the verified
properties, which only constrain missing cells and the cache shape. -/

structure DateTime where
  year : Nat
  month : Nat
  day : Nat
  hour : Nat
  minute : Nat
  second : Nat
deriving DecidableEq

def pad2 (n : Nat) : String := if n < 10 then "0" ++ toString n else toString n

def pad4 (n : Nat) : String :=
  if n < 10 then "000" ++ toString n
  else if n < 100 then "00" ++ toString n
  else if n < 1000 then "0" ++ toString n
  else toString n

/-- Model of `pd.Timestamp(v).strftime("%Y-%m-%d %H:%M:%S")`. -/
def fmtTimestamp (t : DateTime) : String :=
  pad4 t.year ++ "-" ++ pad2 t.month ++ "-" ++ pad2 t.day ++ " " ++
    pad2 t.hour ++ ":" ++ pad2 t.minute ++ ":" ++ pad2 t.second

inductive CellVal where
  | vNull
  | vTime (t : DateTime)
  | vNum (q : Rat)
  | vBool (b : Bool)
  | vStr (s : String)
deriving DecidableEq

def asTime : CellVal → DateTime
  | .vTime t => t
  | _ => { year := 1970, month := 1, day := 1, hour := 0, minute := 0, second := 0 }

def asIntCell : CellVal → Int
  | .vNum q => truncQ q
  | .vBool b => if b then 1 else 0
  | _ => 0

def asBool : CellVal → Bool
  | .vBool b => b
  | .vNum q => decide (q ≠ 0)
  | .vStr s => decide (s ≠ "")
  | .vTime _ => true
  | .vNull => false

def asNum : CellVal → Rat
  | .vNum q => q
  | .vBool b => if b then 1 else 0
  | _ => 0

def asStr : CellVal → String
  | .vStr s => s
  | .vNum q => toString q
  | .vBool b => if b then "True" else "False"
  | .vTime t => fmtTimestamp t
  | .vNull => ""

/-- Model of `f"{x:.4f}"`: fixed four decimal places, rounding half to even
(the display of a float negative zero is not modelled). -/
def fmt4 (q : Rat) : String :=
  let m := rhe (q * 10000)
  (if m < 0 then "-" else "") ++ toString (m.natAbs / 10000) ++ "." ++ pad4 (m.natAbs % 10000)

/-- One cell formatted by the per-column rules of `build_display_cache`:
the `tradeTime` column, the `tradeNr` column, `flag_`-named columns,
numeric-dtype columns, and everything else.  Every branch maps a missing
value to the empty string. -/
def format_cell (colName : String) (numericDtype : Bool) (v : CellVal) : String :=
  if colName = "tradeTime" then
    match v with
    | .vNull => ""
    | v => fmtTimestamp (asTime v)
  else if colName = "tradeNr" then
    match v with
    | .vNull => ""
    | v => toString (asIntCell v)
  else if colName.startsWith "flag_" then
    match v with
    | .vNull => ""
    | v => if asBool v then "✔" else "X"
  else if numericDtype then
    match v with
    | .vNull => ""
    | v => fmt4 (asNum v)
  else
    match v with
    | .vNull => ""
    | v => asStr v

structure Column where
  name : String
  numericDtype : Bool
  values : List CellVal
deriving DecidableEq

structure DisplayTable where
  nRows : Nat
  cols : List Column
deriving DecidableEq

/-- `table_utils.build_display_cache`: an empty mapping and count 0 for an
absent or empty frame (`df.empty` holds when either axis has length 0),
otherwise one list of formatted strings per column, paired with `len(df)`. -/
def build_display_cache (df : Option DisplayTable) : List (String × List String) × Nat :=
  match df with
  | none => ([], 0)
  | some t =>
    if t.nRows = 0 ∨ t.cols = [] then ([], 0)
    else (t.cols.map (fun c => (c.name, c.values.map (format_cell c.name c.numericDtype))),
      t.nRows)

/-! ### Schema (`utils/schema.py`) -/

def PROD_COLS : List String :=
  ["tradeNr", "instrument", "tradeTime", "tradeUnderlyingSpotRef", "portfolio",
   "counterparty", "underlying", "CumDelta", "CumDelta_stock",
   "CumDelta_certificates_abandon", "CumDelta_our_abandon",
   "CumDelta_external_abandon", "CumDelta_our_scheine",
   "CumDelta_external_scheine", "PremiaCum", "SpreadsCapture",
   "FullSpreadCapture", "Total", "PnlVonDeltaCum", "feesCum", "AufgeldCum"]

/-- `schema.flag_cols`: `total_columns - len(PROD_COLS)` names `flag_00`,
`flag_01`, … (`f"flag_{i:02d}"`), or a `ValueError` when that count is
negative. -/
def flag_cols (total_columns : Int) : Except String (List String) :=
  let n_flags : Int := total_columns - PROD_COLS.length
  if n_flags < 0 then
    .error "SchemaConfig.total_columns is smaller than number of production columns."
  else
    .ok ((List.range n_flags.toNat).map (fun i => "flag_" ++ pad2 i))

/-! ### Ranking and report building (`ReportSheet._build_report_table_ceo_deluxe`)

A filtered end-of-day row (`rng` row) is modelled by a row identity
(`rid`, standing for all display columns copied through unchanged) plus
the numeric view of its columns: `vals` maps a column name to `some q`
when `pd.to_numeric(..., errors="coerce")` yields the number `q` there,
and to `none` when the cell is missing or non-numeric (`NaN` after
coercion).  The table also carries its column-name list.

`nlargest(n, key)` / `nsmallest(n, key)` with the default `keep="first"`
are modelled as a stable sort (descending resp. ascending by the key,
ties kept in frame order) followed by `take n`.
-/

structure RRow where
  rid : Nat
  vals : List (String × Option Rat)
deriving DecidableEq

structure RTable where
  cols : List String
  rows : List RRow
deriving DecidableEq

/-- `pd.to_numeric(work[c], errors="coerce")` without filling: the numeric
value of column `c` in row `r`, `none` when missing or non-numeric. -/
def rawNum (r : RRow) (c : String) : Option Rat :=
  match r.vals.lookup c with
  | some v => v
  | none => none

/-- `pd.to_numeric(work[c], errors="coerce").fillna(0.0)`. -/
def numVal (r : RRow) (c : String) : Rat := (rawNum r c).getD 0

/-- Comparator behind `nlargest(n, "_metric_value")`: stable descending order. -/
def descLe (metric : String) (a b : RRow) : Bool :=
  decide (numVal b metric ≤ numVal a metric)

/-- Comparator behind `nsmallest(n, "_metric_value")`: stable ascending order. -/
def ascLe (metric : String) (a b : RRow) : Bool :=
  decide (numVal a metric ≤ numVal b metric)

/-- The Top block: the `n` rows of greatest `_metric_value`, in descending
order, ties in frame order. -/
def topBlock (t : RTable) (metric : String) (n : Nat) : List RRow :=
  (t.rows.mergeSort (descLe metric)).take n

/-- The Bottom block before display reordering (`bot_raw`): the `n` rows of
smallest `_metric_value`, in ascending order, ties in frame order. -/
def botBlockRaw (t : RTable) (metric : String) (n : Nat) : List RRow :=
  (t.rows.mergeSort (ascLe metric)).take n

/-- Comparator of `bot_raw.sort_values("rank", ascending=False, kind="mergesort")`. -/
def rankLeDesc (a b : Nat × RRow) : Bool := decide (b.1 ≤ a.1)

/-- The Bottom block as displayed: ranked `1..k` (rank 1 = most negative) and
then stably re-sorted by rank descending. -/
def botDisplay (t : RTable) (metric : String) (n : Nat) : List (Nat × RRow) :=
  ((botBlockRaw t metric n).enumFrom 1).mergeSort rankLeDesc

/-- `extra_cols`: the requested extra metric columns that exist in the frame
and differ from the ranked metric, in request order. -/
def extraColsOf (t : RTable) (metric : String) (extra_metrics : List String) : List String :=
  extra_metrics.filter (fun c => decide (c ∈ t.cols) && decide (c ≠ metric))

/-- Column-wide sum with missing/non-numeric coerced to 0. -/
def colTotal (t : RTable) (c : String) : Rat := (t.rows.map (fun r => numVal r c)).sum

/-- One row of the produced report.  `sec` models the `section` column
(`"Top"`, `"Bottom"` or `"TOTAL"`); `rank` is `none` for the `"Σ"` sentinel
of the TOTAL row; `metric_value` and the `extras` cells are the `Int64`
results of `_fmt_int_series` (`none` = `pd.NA`); `srcId` is the identity of
the originating end-of-day row (`none` for the TOTAL row). -/
structure ReportRow where
  sign : String
  sec : String
  rank : Option Nat
  metric_value : Option Int
  extras : List (String × Option Int)
  srcId : Option Nat
deriving DecidableEq

/-- `_fmt_int_series` on one cell: `to_numeric(..., errors="coerce").round(0)`
as a nullable integer. -/
def fmtIntCell : Option Rat → Option Int
  | some q => some (rhe q)
  | none => none

/-- `sign_icon`: `Σ` for the TOTAL row, otherwise green for a non-negative
metric value and red for a negative one (`float(pd.NA)` raises, caught and
treated as `0.0`, hence green). -/
def signIcon (mv : Option Int) (sec : String) : String :=
  if sec = "TOTAL" then "Σ"
  else
    match mv with
    | some v => if 0 ≤ v then "🟢" else "🔴"
    | none => "🟢"

/-- A ranked (Top or Bottom) report row built from a source row. -/
def mkRankedRow (metric : String) (extraCols : List String) (sec : String)
    (rk : Nat) (r : RRow) : ReportRow :=
  { sign := signIcon (some (rhe (numVal r metric))) sec
    sec := sec
    rank := some rk
    metric_value := some (rhe (numVal r metric))
    extras := extraCols.map (fun c => (c, fmtIntCell (rawNum r c)))
    srcId := some r.rid }

/-- The TOTAL row: the metric's column-wide sum and each extra column's
column-wide sum, both then rounded by `_fmt_int_series`. -/
def totalRowOf (t : RTable) (metric : String) (extra_metrics : List String) : ReportRow :=
  { sign := "Σ"
    sec := "TOTAL"
    rank := none
    metric_value := some (rhe (colTotal t metric))
    extras := (extraColsOf t metric extra_metrics).map (fun c => (c, some (rhe (colTotal t c))))
    srcId := none }

/-- The Top block as report rows, ranked `1..k` in block order. -/
def topPart (t : RTable) (metric : String) (n : Nat) (extra_metrics : List String) :
    List ReportRow :=
  ((topBlock t metric n).enumFrom 1).map
    (fun p => mkRankedRow metric (extraColsOf t metric extra_metrics) "Top" p.1 p.2)

/-- The displayed Bottom block as report rows. -/
def botPart (t : RTable) (metric : String) (n : Nat) (extra_metrics : List String) :
    List ReportRow :=
  (botDisplay t metric n).map
    (fun p => mkRankedRow metric (extraColsOf t metric extra_metrics) "Bottom" p.1 p.2)

/-- `pd.concat([top, bot, total_row])` as report rows. -/
def outRows (t : RTable) (metric : String) (n : Nat) (extra_metrics : List String) :
    List ReportRow :=
  topPart t metric n extra_metrics ++ botPart t metric n extra_metrics ++
    [totalRowOf t metric extra_metrics]

/-- `_sec_ord`: `{"Top": 0, "Bottom": 1, "TOTAL": 2}` with `fillna(9)`. -/
def secOrd (s : String) : Int :=
  if s = "Top" then 0 else if s = "Bottom" then 1 else if s = "TOTAL" then 2 else 9

/-- `_rank_key`: the numeric rank for Top rows, its negation for Bottom rows,
and `1e12` for every other row (the TOTAL sentinel). -/
def rankKeyQ (r : ReportRow) : Rat :=
  let rk : Rat := match r.rank with | some k => (k : Rat) | none => 0
  if r.sec = "Top" then rk
  else if r.sec = "Bottom" then -rk
  else 10 ^ 12

/-- Comparator of the final `sort_values(["_sec_ord", "_rank_key"],
kind="mergesort")`. -/
def reportLe (a b : ReportRow) : Bool :=
  decide (secOrd a.sec < secOrd b.sec ∨
    (secOrd a.sec = secOrd b.sec ∧ rankKeyQ a ≤ rankKeyQ b))

structure KPIs where
  top_sum : Int
  bottom_sum : Int
  total_sum : Int
  net : Int
deriving DecidableEq

/-- The KPI dictionary: `int(...)` (truncation toward zero) of the Top and
raw-Bottom block sums, `int(round(total_val))` for the grand total, and
`net = top_sum + bottom_sum`. -/
def kpisOf (t : RTable) (metric : String) (n : Nat) : KPIs :=
  let ts : Int :=
    if (topBlock t metric n).isEmpty then 0
    else truncQ (((topBlock t metric n).map (fun r => numVal r metric)).sum)
  let bs : Int :=
    if (botBlockRaw t metric n).isEmpty then 0
    else truncQ (((botBlockRaw t metric n).map (fun r => numVal r metric)).sum)
  { top_sum := ts
    bottom_sum := bs
    total_sum := rhe (colTotal t metric)
    net := ts + bs }

/-- `ReportSheet._build_report_table_ceo_deluxe`: an empty frame and an empty
KPI dictionary for an absent or empty input; otherwise the concatenated
Top/Bottom/TOTAL rows, stably re-sorted by `(_sec_ord, _rank_key)`, plus the
KPIs. -/
def build_report (rng : Option RTable) (metric : String) (n : Nat)
    (extra_metrics : List String) : List ReportRow × Option KPIs :=
  match rng with
  | none => ([], none)
  | some t =>
    if t.rows = [] ∨ t.cols = [] then ([], none)
    else ((outRows t metric n extra_metrics).mergeSort reportLe,
      some (kpisOf t metric n))

/-! ### Concrete inputs used by witnesses and counterexamples -/

def tW1 : TradeTable :=
  { cols := ["instrument", "tradeTime"]
    rows := [{ payload := 0, instrument := "A", tradeTime := { day := 0, tod := 5 } },
             { payload := 1, instrument := "A", tradeTime := { day := 0, tod := 9 } }] }

def dtW : DisplayTable :=
  { nRows := 1
    cols := [{ name := "tradeTime", numericDtype := false, values := [CellVal.vNull] },
             { name := "x", numericDtype := true, values := [CellVal.vNum 2] }] }

def rt1 : RTable :=
  { cols := ["instrument", "day", "Total"]
    rows := [{ rid := 1, vals := [("Total", some (1/2))] }] }

def rt2 : RTable :=
  { cols := ["instrument", "day", "Total"]
    rows := [{ rid := 1, vals := [("Total", some (3/4))] },
             { rid := 2, vals := [("Total", some (3/4))] }] }

/-! ## Generic support lemmas -/

theorem lastPerKey_sublist {α κ : Type} [DecidableEq κ] (key : α → κ) :
    ∀ l : List α, List.Sublist (lastPerKey key l) l
  | [] => List.Sublist.refl _
  | x :: xs => by
    rw [lastPerKey]
    by_cases h : xs.any (fun y => decide (key y = key x)) = true
    · rw [if_pos h]
      exact (lastPerKey_sublist key xs).trans (List.sublist_cons_self x xs)
    · rw [if_neg h]
      exact List.cons_sublist_cons.mpr (lastPerKey_sublist key xs)

theorem countP_lastPerKey {α κ : Type} [DecidableEq κ] (key : α → κ) (k : κ) :
    ∀ l : List α,
      (lastPerKey key l).countP (fun r => decide (key r = k)) =
        if l.any (fun r => decide (key r = k)) then 1 else 0
  | [] => by simp [lastPerKey]
  | x :: xs => by
    rw [lastPerKey]
    by_cases h : xs.any (fun y => decide (key y = key x)) = true
    · rw [if_pos h, countP_lastPerKey key k xs]
      by_cases hk : key x = k
      · have hxs : xs.any (fun r => decide (key r = k)) = true := by
          rw [List.any_eq_true] at h ⊢
          obtain ⟨y, hy, hyk⟩ := h
          exact ⟨y, hy, by simp only [decide_eq_true_eq] at hyk ⊢; rw [hyk, hk]⟩
        simp [hxs]
      · simp [hk]
    · rw [if_neg h, List.countP_cons, countP_lastPerKey key k xs]
      by_cases hk : key x = k
      · have hxs : xs.any (fun r => decide (key r = k)) = false := by
          by_contra hc
          rw [Bool.not_eq_false, List.any_eq_true] at hc
          obtain ⟨y, hy, hyk⟩ := hc
          apply h
          rw [List.any_eq_true]
          refine ⟨y, hy, ?_⟩
          simp only [decide_eq_true_eq] at hyk ⊢
          rw [hyk, hk]
        simp [hxs, hk]
      · simp [hk]

theorem lastPerKey_max {α κ : Type} [DecidableEq κ] {R : α → α → Prop} (key : α → κ) :
    ∀ {l : List α}, l.Pairwise R → ∀ x ∈ l, ∀ r ∈ lastPerKey key l,
      key x = key r → x = r ∨ R x r
  | [], _, x, hx, _, _, _ => absurd hx (List.not_mem_nil x)
  | a :: t, hp, x, hx, r, hr, hkey => by
    rw [lastPerKey] at hr
    rw [List.pairwise_cons] at hp
    obtain ⟨ha, hpt⟩ := hp
    by_cases h : t.any (fun y => decide (key y = key a)) = true
    · rw [if_pos h] at hr
      rcases List.mem_cons.mp hx with hxa | hxt
      · subst hxa
        exact Or.inr (ha r (List.Sublist.mem hr (lastPerKey_sublist key t)))
      · exact lastPerKey_max key hpt x hxt r hr hkey
    · rw [if_neg h] at hr
      rcases List.mem_cons.mp hr with hra | hrt
      · subst hra
        rcases List.mem_cons.mp hx with hxa | hxt
        · exact Or.inl hxa
        · exact absurd (List.any_eq_true.mpr ⟨x, hxt, by simp [hkey]⟩) h
      · rcases List.mem_cons.mp hx with hxa | hxt
        · subst hxa
          exact Or.inr (ha r (List.Sublist.mem hrt (lastPerKey_sublist key t)))
        · exact lastPerKey_max key hpt x hxt r hrt hkey

/-- Two permuted lists that are both pairwise-ordered by an asymmetric
relation are equal: the sorted order of a list with pairwise-distinct keys
is unique. -/
theorem perm_pairwise_asymm_eq {α : Type} {lt : α → α → Prop}
    (hasymm : ∀ a b, lt a b → lt b a → False)
    {l₁ l₂ : List α} (hp : l₁.Perm l₂)
    (h₁ : l₁.Pairwise lt) (h₂ : l₂.Pairwise lt) : l₁ = l₂ := by
  haveI : IsAntisymm α lt := ⟨fun a b h h' => (hasymm a b h h').elim⟩
  exact List.eq_of_perm_of_sorted hp h₁ h₂

theorem le_fst_of_mem_enumFrom {α : Type} :
    ∀ {i : Nat} {l : List α} {p : Nat × α}, p ∈ l.enumFrom i → i ≤ p.1
  | _, [], p, h => absurd h (List.not_mem_nil p)
  | i, x :: xs, p, h => by
    rw [List.enumFrom_cons] at h
    rcases List.mem_cons.mp h with h1 | h2
    · subst h1; exact Nat.le_refl i
    · exact Nat.le_of_succ_le (le_fst_of_mem_enumFrom h2)

theorem pairwise_fst_lt_enumFrom {α : Type} :
    ∀ (i : Nat) (l : List α), (l.enumFrom i).Pairwise (fun a b => a.1 < b.1)
  | _, [] => List.Pairwise.nil
  | i, x :: xs => by
    rw [List.enumFrom_cons]
    refine List.Pairwise.cons ?_ (pairwise_fst_lt_enumFrom (i+1) xs)
    intro p hp
    exact Nat.lt_of_succ_le (le_fst_of_mem_enumFrom hp)

/-! ## Comparator facts (transitivity and totality, as `List.sorted_mergeSort` needs) -/

theorem eodLe_trans : ∀ (a b c : TradeRow), eodLe a b → eodLe b c → eodLe a c := by
  intro a b c h1 h2
  simp only [eodLe, tsLeB, Bool.or_eq_true, Bool.and_eq_true, decide_eq_true_eq] at h1 h2 ⊢
  rcases h1 with h1 | ⟨e1, d1⟩ <;> rcases h2 with h2 | ⟨e2, d2⟩
  · exact Or.inl (lt_trans h1 h2)
  · exact Or.inl (lt_of_lt_of_le h1 (le_of_eq e2))
  · exact Or.inl (lt_of_le_of_lt (le_of_eq e1) h2)
  · refine Or.inr ⟨e1.trans e2, ?_⟩
    omega

theorem eodLe_total : ∀ (a b : TradeRow), eodLe a b || eodLe b a := by
  intro a b
  simp only [eodLe, tsLeB, Bool.or_eq_true, Bool.and_eq_true, decide_eq_true_eq]
  rcases lt_trichotomy a.instrument b.instrument with h | h | h
  · exact Or.inl (Or.inl h)
  · rcases Int.lt_trichotomy a.tradeTime.day b.tradeTime.day with h2 | h2 | h2
    · exact Or.inl (Or.inr ⟨h, Or.inl h2⟩)
    · rcases Nat.le_total a.tradeTime.tod b.tradeTime.tod with h3 | h3
      · exact Or.inl (Or.inr ⟨h, Or.inr ⟨h2, Or.inr ⟨h2, h3⟩⟩⟩)
      · exact Or.inr (Or.inr ⟨h.symm, Or.inr ⟨h2.symm, Or.inr ⟨h2.symm, h3⟩⟩⟩)
    · exact Or.inr (Or.inr ⟨h.symm, Or.inl h2⟩)
  · exact Or.inr (Or.inl h)

theorem descLe_trans (metric : String) :
    ∀ (a b c : RRow), descLe metric a b → descLe metric b c → descLe metric a c := by
  intro a b c h1 h2
  simp only [descLe, decide_eq_true_eq] at h1 h2 ⊢
  exact le_trans h2 h1

theorem descLe_total (metric : String) :
    ∀ (a b : RRow), descLe metric a b || descLe metric b a := by
  intro a b
  simp only [descLe, Bool.or_eq_true, decide_eq_true_eq]
  exact le_total _ _

theorem ascLe_trans (metric : String) :
    ∀ (a b c : RRow), ascLe metric a b → ascLe metric b c → ascLe metric a c := by
  intro a b c h1 h2
  simp only [ascLe, decide_eq_true_eq] at h1 h2 ⊢
  exact le_trans h1 h2

theorem ascLe_total (metric : String) :
    ∀ (a b : RRow), ascLe metric a b || ascLe metric b a := by
  intro a b
  simp only [ascLe, Bool.or_eq_true, decide_eq_true_eq]
  exact le_total _ _

theorem rankLeDesc_trans :
    ∀ (a b c : Nat × RRow), rankLeDesc a b → rankLeDesc b c → rankLeDesc a c := by
  intro a b c h1 h2
  simp only [rankLeDesc, decide_eq_true_eq] at h1 h2 ⊢
  omega

theorem rankLeDesc_total : ∀ (a b : Nat × RRow), rankLeDesc a b || rankLeDesc b a := by
  intro a b
  simp only [rankLeDesc, Bool.or_eq_true, decide_eq_true_eq]
  omega

theorem reportLe_trans :
    ∀ (a b c : ReportRow), reportLe a b → reportLe b c → reportLe a c := by
  intro a b c h1 h2
  simp only [reportLe, decide_eq_true_eq] at h1 h2 ⊢
  rcases h1 with h1 | ⟨e1, k1⟩ <;> rcases h2 with h2 | ⟨e2, k2⟩
  · exact Or.inl (lt_trans h1 h2)
  · exact Or.inl (lt_of_lt_of_le h1 (le_of_eq e2))
  · exact Or.inl (lt_of_le_of_lt (le_of_eq e1) h2)
  · exact Or.inr ⟨e1.trans e2, le_trans k1 k2⟩

theorem reportLe_total : ∀ (a b : ReportRow), reportLe a b || reportLe b a := by
  intro a b
  simp only [reportLe, Bool.or_eq_true, decide_eq_true_eq]
  rcases lt_trichotomy (secOrd a.sec) (secOrd b.sec) with h | h | h
  · exact Or.inl (Or.inl h)
  · rcases le_total (rankKeyQ a) (rankKeyQ b) with h2 | h2
    · exact Or.inl (Or.inr ⟨h, h2⟩)
    · exact Or.inr (Or.inr ⟨h.symm, h2⟩)
  · exact Or.inr (Or.inl h)

/-! ## C1 — end-of-day reduction -/

/-- C1: for every non-empty trade table containing the `instrument` and
`tradeTime` columns, the end-of-day reduction succeeds and produces exactly
one output row per distinct `(instrument, day)` pair present in the input;
each output row is an input row whose `tradeTime` is maximal within its
`(instrument, day)` group, with the derived day exposed as the new `day`
column. -/
theorem c1_eod_one_row_per_group_max_time (t : TradeTable)
    (hne : t.rows ≠ []) (hi : "instrument" ∈ t.cols) (ht : "tradeTime" ∈ t.cols) :
    ∃ eod, build_eod_df (some t) = some eod ∧
      (∀ k : String × Int,
        eod.countP (fun e => decide (eodKey e.row = k)) =
          if t.rows.any (fun r => decide (eodKey r = k)) then 1 else 0) ∧
      (∀ e ∈ eod, e.row ∈ t.rows ∧ e.day = e.row.tradeTime.day ∧
        ∀ x ∈ t.rows, eodKey x = eodKey e.row → tsLe x.tradeTime e.row.tradeTime) := by
  have hcols : t.cols ≠ [] := by
    intro h
    rw [h] at hi
    exact (List.not_mem_nil _) hi
  rw [build_eod_df]
  rw [if_neg (by push_neg; exact ⟨hne, hcols⟩), if_neg (by push_neg; exact ⟨hi, ht⟩)]
  refine ⟨_, rfl, ?_, ?_⟩
  · intro k
    rw [List.countP_map]
    have hcnt := countP_lastPerKey eodKey k (t.rows.mergeSort eodLe)
    have hfun : ((fun e : EodRow => decide (eodKey e.row = k)) ∘
        (fun r : TradeRow => ({ row := r, day := r.tradeTime.day } : EodRow))) =
        fun r : TradeRow => decide (eodKey r = k) := rfl
    rw [hfun, hcnt]
    have hany : (t.rows.mergeSort eodLe).any (fun r => decide (eodKey r = k)) =
        t.rows.any (fun r => decide (eodKey r = k)) := by
      apply Bool.coe_iff_coe.mp
      simp only [List.any_eq_true, List.mem_mergeSort]
    rw [hany]
  · intro e he
    rw [List.mem_map] at he
    obtain ⟨r, hr, rfl⟩ := he
    have hrs : r ∈ t.rows.mergeSort eodLe :=
      List.Sublist.mem hr (lastPerKey_sublist eodKey _)
    have hrm : r ∈ t.rows := List.mem_mergeSort.mp hrs
    refine ⟨hrm, rfl, ?_⟩
    intro x hx hkx
    have hxs : x ∈ t.rows.mergeSort eodLe := List.mem_mergeSort.mpr hx
    have hsort := List.sorted_mergeSort eodLe_trans eodLe_total t.rows
    rcases lastPerKey_max eodKey hsort x hxs r hr hkx with rfl | hle
    · exact Or.inr ⟨rfl, Nat.le_refl _⟩
    · have hinstr : x.instrument = r.instrument := congrArg Prod.fst hkx
      have hday : x.tradeTime.day = r.tradeTime.day := congrArg Prod.snd hkx
      simp only [eodLe, tsLeB, Bool.or_eq_true, Bool.and_eq_true, decide_eq_true_eq] at hle
      rcases hle with h | ⟨_, h2⟩
      · exact absurd (hinstr ▸ h) (lt_irrefl _)
      · show x.tradeTime.day < r.tradeTime.day ∨
          (x.tradeTime.day = r.tradeTime.day ∧ x.tradeTime.tod ≤ r.tradeTime.tod)
        omega

/-- Witness for C1 at a concrete two-row table whose rows share one
`(instrument, day)` group. -/
theorem c1_witness :
    ∃ eod, build_eod_df (some tW1) = some eod ∧
      (∀ k : String × Int,
        eod.countP (fun e => decide (eodKey e.row = k)) =
          if tW1.rows.any (fun r => decide (eodKey r = k)) then 1 else 0) ∧
      (∀ e ∈ eod, e.row ∈ tW1.rows ∧ e.day = e.row.tradeTime.day ∧
        ∀ x ∈ tW1.rows, eodKey x = eodKey e.row → tsLe x.tradeTime e.row.tradeTime) :=
  c1_eod_one_row_per_group_max_time tW1 (by decide) (by decide) (by decide)

/-! ## C8 — reducer on empty or structurally deficient input -/

/-- C8: for an absent table, an empty table, or a table lacking the
structural `instrument` or `tradeTime` column, the end-of-day reducer
returns the empty result `none`; being a total Lean function, it raises
no exception on any such input. -/
theorem c8_eod_none_on_empty_or_missing (df : Option TradeTable)
    (h : df = none ∨ ∃ t, df = some t ∧
      (t.rows = [] ∨ "instrument" ∉ t.cols ∨ "tradeTime" ∉ t.cols)) :
    build_eod_df df = none := by
  rcases h with rfl | ⟨t, rfl, h⟩
  · rfl
  · rw [build_eod_df]
    by_cases h0 : t.rows = [] ∨ t.cols = []
    · rw [if_pos h0]
    · rw [if_neg h0]
      rcases h with h | h | h
      · exact absurd (Or.inl h) h0
      · rw [if_pos (Or.inl h)]
      · rw [if_pos (Or.inr h)]

/-- Witness for C8 at the absent-table input. -/
theorem c8_witness : build_eod_df none = none :=
  c8_eod_none_on_empty_or_missing none (Or.inl rfl)

/-! ## C6 — column selection -/

/-- C6 counterexample: requesting only a column absent from the table yields
the empty selection, and re-applying that empty selection falls back to all
table columns, so the claimed unconditional idempotence fails. -/
theorem c6_counterexample :
    sanitize_visible_cols ["a"] (some (sanitize_visible_cols ["a"] (some ["b"]))) ≠
      sanitize_visible_cols ["a"] (some ["b"]) := by decide

/-- C6 (amended): the selection returns the requested columns that exist in
the table, in requested order, and all table columns when the request is
empty or absent; re-applying the selection to its own output yields the same
column list provided that output is non-empty (when no requested column
exists, the empty output instead falls back to all columns on
re-application). -/
theorem c6_select_columns (all_cols req : List String) :
    sanitize_visible_cols all_cols none = all_cols ∧
    sanitize_visible_cols all_cols (some []) = all_cols ∧
    (req ≠ [] →
      List.Sublist (sanitize_visible_cols all_cols (some req)) req ∧
      ∀ c, c ∈ sanitize_visible_cols all_cols (some req) ↔ (c ∈ req ∧ c ∈ all_cols)) ∧
    (sanitize_visible_cols all_cols (some req) ≠ [] →
      sanitize_visible_cols all_cols (some (sanitize_visible_cols all_cols (some req))) =
        sanitize_visible_cols all_cols (some req)) := by
  refine ⟨rfl, rfl, ?_, ?_⟩
  · intro hreq
    rw [sanitize_visible_cols, if_neg hreq]
    refine ⟨List.filter_sublist req, ?_⟩
    intro c
    simp [List.mem_filter]
  · intro hne
    by_cases hreq : req = []
    · subst hreq
      rw [show sanitize_visible_cols all_cols (some []) = all_cols from rfl] at hne ⊢
      rw [sanitize_visible_cols, if_neg hne]
      exact List.filter_eq_self.mpr (fun a ha => by simp [ha])
    · have hS : sanitize_visible_cols all_cols (some req) =
          req.filter (fun c => decide (c ∈ all_cols)) := by
        rw [sanitize_visible_cols, if_neg hreq]
      rw [hS] at hne ⊢
      rw [sanitize_visible_cols, if_neg hne]
      exact List.filter_eq_self.mpr (fun a ha => (List.mem_filter.mp ha).2)

/-- Witness for the amended C6 at a concrete table and request with one
present and one absent requested column. -/
theorem c6_witness :
    List.Sublist (sanitize_visible_cols ["a", "b"] (some ["b", "c"])) ["b", "c"] ∧
    sanitize_visible_cols ["a", "b"]
        (some (sanitize_visible_cols ["a", "b"] (some ["b", "c"]))) =
      sanitize_visible_cols ["a", "b"] (some ["b", "c"]) :=
  ⟨((c6_select_columns ["a", "b"] ["b", "c"]).2.2.1 (by decide)).1,
   (c6_select_columns ["a", "b"] ["b", "c"]).2.2.2 (by decide)⟩

/-! ## C9 — flag column generation -/

/-- C9: `flag_cols` fails with the configuration error exactly when
`total_columns` is smaller than the number of fixed production columns, and
otherwise returns an ordered list of `total_columns - len(PROD_COLS)` names
whose `i`-th entry is `"flag_"` followed by the zero-padded two-digit index
`i` (so `flag_00`, `flag_01`, …). -/
theorem c9_flag_cols (tc : Int) :
    (tc < PROD_COLS.length ↔
      flag_cols tc =
        .error "SchemaConfig.total_columns is smaller than number of production columns.") ∧
    ((PROD_COLS.length : Int) ≤ tc → ∃ l, flag_cols tc = .ok l ∧
      (l.length : Int) = tc - PROD_COLS.length ∧
      ∀ i (h : i < l.length), l[i] = "flag_" ++ pad2 i) := by
  constructor
  · constructor
    · intro h
      simp only [flag_cols]
      rw [if_pos (by omega)]
    · intro h
      by_contra hlt
      simp only [flag_cols] at h
      rw [if_neg (by omega)] at h
      simp at h
  · intro h
    simp only [flag_cols]
    rw [if_neg (by omega)]
    refine ⟨_, rfl, ?_, ?_⟩
    · rw [List.length_map, List.length_range]
      omega
    · intro i hi
      simp only [List.getElem_map, List.getElem_range]

/-- Witness for C9 at the production configuration `total_columns = 64`. -/
theorem c9_witness :
    ∃ l, flag_cols 64 = .ok l ∧ (l.length : Int) = 64 - PROD_COLS.length ∧
      ∀ i (h : i < l.length), l[i] = "flag_" ++ pad2 i :=
  (c9_flag_cols 64).2 (by decide)

/-! ## C7 — display cache on empty input and missing cells -/

theorem format_cell_vNull (name : String) (dt : Bool) :
    format_cell name dt CellVal.vNull = "" := by
  unfold format_cell
  split
  · rfl
  · split
    · rfl
    · split
      · rfl
      · split
        · rfl
        · rfl

/-- C7: the display cache of an absent or empty table is the empty mapping
with row count 0; and every missing (null) cell is formatted as the empty
string, regardless of whether its column is the timestamp column, the
`tradeNr` column, a flag column, a numeric column, or any other column. -/
theorem c7_display_cache_empty_null (df : Option DisplayTable) :
    ((df = none ∨ ∃ t, df = some t ∧ (t.nRows = 0 ∨ t.cols = [])) →
      build_display_cache df = ([], 0)) ∧
    (∀ (t : DisplayTable) (j : Nat) (c : Column) (i : Nat),
      df = some t → t.nRows ≠ 0 → t.cols[j]? = some c →
      c.values[i]? = some CellVal.vNull →
      ∃ strs, (build_display_cache df).1[j]? = some (c.name, strs) ∧
        strs[i]? = some "") := by
  constructor
  · rintro (rfl | ⟨t, rfl, h⟩)
    · rfl
    · simp only [build_display_cache]
      rw [if_pos h]
  · intro t j c i hdf h0 hj hi
    subst hdf
    have hc : t.cols ≠ [] := by
      intro hcols
      rw [hcols] at hj
      simp at hj
    have hbd : (build_display_cache (some t)).1 =
        t.cols.map (fun c => (c.name, c.values.map (format_cell c.name c.numericDtype))) := by
      simp only [build_display_cache]
      rw [if_neg (by push_neg; exact ⟨h0, hc⟩)]
    rw [hbd]
    refine ⟨c.values.map (format_cell c.name c.numericDtype), ?_, ?_⟩
    · rw [List.getElem?_map, hj]
      rfl
    · rw [List.getElem?_map, hi]
      simp [format_cell_vNull]

/-- Witness for C7 at a concrete table with a missing value in its
`tradeTime` column. -/
theorem c7_witness :
    ∃ strs, (build_display_cache (some dtW)).1[0]? =
        some ((⟨"tradeTime", false, [CellVal.vNull]⟩ : Column).name, strs) ∧
      strs[0]? = some "" :=
  (c7_display_cache_empty_null (some dtW)).2 dtW 0
    ⟨"tradeTime", false, [CellVal.vNull]⟩ 0 rfl (by decide) (by decide) (by decide)

/-! ## C10 — display cache shape -/

/-- C10: for every rectangular non-empty table, the cache holds one entry per
column (in column order), each entry holds exactly one formatted string per
row, and the returned row count equals the table's row count. -/
theorem c10_display_cache_shape (t : DisplayTable)
    (h0 : t.nRows ≠ 0) (hc : t.cols ≠ [])
    (hrect : ∀ c ∈ t.cols, c.values.length = t.nRows) :
    (build_display_cache (some t)).2 = t.nRows ∧
    (build_display_cache (some t)).1.map Prod.fst = t.cols.map Column.name ∧
    ∀ e ∈ (build_display_cache (some t)).1, e.2.length = t.nRows := by
  have hbd : build_display_cache (some t) =
      (t.cols.map (fun c => (c.name, c.values.map (format_cell c.name c.numericDtype))),
        t.nRows) := by
    simp only [build_display_cache]
    rw [if_neg (by push_neg; exact ⟨h0, hc⟩)]
  rw [hbd]
  refine ⟨rfl, ?_, ?_⟩
  · rw [List.map_map]
    rfl
  · intro e he
    rw [List.mem_map] at he
    obtain ⟨c, hcm, rfl⟩ := he
    simp only [List.length_map]
    exact hrect c hcm

/-- Witness for C10 at a concrete two-column, one-row table. -/
theorem c10_witness :
    (build_display_cache (some dtW)).2 = dtW.nRows ∧
    (build_display_cache (some dtW)).1.map Prod.fst = dtW.cols.map Column.name ∧
    ∀ e ∈ (build_display_cache (some dtW)).1, e.2.length = dtW.nRows :=
  c10_display_cache_shape dtW (by decide) (by decide) (by decide)

/-! ## Support lemmas for the report builder -/

theorem topBlock_length (t : RTable) (metric : String) (n : Nat) :
    (topBlock t metric n).length = min n t.rows.length := by
  rw [topBlock, List.length_take, List.length_mergeSort]

theorem botBlockRaw_length (t : RTable) (metric : String) (n : Nat) :
    (botBlockRaw t metric n).length = min n t.rows.length := by
  rw [botBlockRaw, List.length_take, List.length_mergeSort]

theorem rankKeyQ_mk_top (m : String) (xc : List String) (k : Nat) (r : RRow) :
    rankKeyQ (mkRankedRow m xc "Top" k r) = (k : Rat) := by
  simp [rankKeyQ, mkRankedRow]

theorem rankKeyQ_mk_bottom (m : String) (xc : List String) (k : Nat) (r : RRow) :
    rankKeyQ (mkRankedRow m xc "Bottom" k r) = -(k : Rat) := by
  simp [rankKeyQ, mkRankedRow]

theorem sec_of_mem_topPart (t : RTable) (metric : String) (n : Nat) (xm : List String)
    (x : ReportRow) (hx : x ∈ topPart t metric n xm) : x.sec = "Top" := by
  rw [topPart] at hx
  obtain ⟨p, _, rfl⟩ := List.mem_map.mp hx
  rfl

theorem sec_of_mem_botPart (t : RTable) (metric : String) (n : Nat) (xm : List String)
    (x : ReportRow) (hx : x ∈ botPart t metric n xm) : x.sec = "Bottom" := by
  rw [botPart] at hx
  obtain ⟨p, _, rfl⟩ := List.mem_map.mp hx
  rfl

theorem outRows_pairwise (t : RTable) (metric : String) (n : Nat) (xm : List String) :
    (outRows t metric n xm).Pairwise (fun a b => reportLe a b = true) := by
  have htop : (topPart t metric n xm).Pairwise (fun a b => reportLe a b = true) := by
    rw [topPart]
    refine List.Pairwise.map _ ?_ (pairwise_fst_lt_enumFrom 1 (topBlock t metric n))
    intro a b hab
    simp only [reportLe, decide_eq_true_eq]
    refine Or.inr ⟨rfl, ?_⟩
    rw [rankKeyQ_mk_top, rankKeyQ_mk_top]
    exact_mod_cast Nat.le_of_lt hab
  have hbot : (botPart t metric n xm).Pairwise (fun a b => reportLe a b = true) := by
    rw [botPart]
    refine List.Pairwise.map _ ?_
      (List.sorted_mergeSort rankLeDesc_trans rankLeDesc_total _)
    intro a b hab
    simp only [rankLeDesc, decide_eq_true_eq] at hab
    simp only [reportLe, decide_eq_true_eq]
    refine Or.inr ⟨rfl, ?_⟩
    rw [rankKeyQ_mk_bottom, rankKeyQ_mk_bottom]
    have : (b.1 : Rat) ≤ (a.1 : Rat) := by exact_mod_cast hab
    linarith
  rw [outRows, List.pairwise_append]
  refine ⟨?_, List.pairwise_singleton _ _, ?_⟩
  · rw [List.pairwise_append]
    refine ⟨htop, hbot, ?_⟩
    intro x hx y hy
    have hx' := sec_of_mem_topPart t metric n xm x hx
    have hy' := sec_of_mem_botPart t metric n xm y hy
    simp only [reportLe, decide_eq_true_eq]
    left
    rw [hx', hy']
    decide
  · intro x hx y hy
    rw [List.mem_singleton] at hy
    subst hy
    rcases List.mem_append.mp hx with hxt | hxb
    · have hx' := sec_of_mem_topPart t metric n xm x hxt
      simp only [reportLe, decide_eq_true_eq]
      left
      rw [hx', show (totalRowOf t metric xm).sec = "TOTAL" from rfl]
      decide
    · have hx' := sec_of_mem_botPart t metric n xm x hxb
      simp only [reportLe, decide_eq_true_eq]
      left
      rw [hx', show (totalRowOf t metric xm).sec = "TOTAL" from rfl]
      decide

/-- On a non-empty input the builder's final stable sort is the identity:
the concatenated Top/Bottom/TOTAL rows are already ordered by
`(_sec_ord, _rank_key)`. -/
theorem build_report_rows_eq (t : RTable) (metric : String) (n : Nat) (xm : List String)
    (hrows : t.rows ≠ []) (hcols : t.cols ≠ []) :
    build_report (some t) metric n xm =
      (outRows t metric n xm, some (kpisOf t metric n)) := by
  rw [build_report]
  rw [if_neg (by push_neg; exact ⟨hrows, hcols⟩)]
  rw [List.mergeSort_of_sorted (outRows_pairwise t metric n xm)]

/-- Stably re-sorting the Bottom block by rank descending reverses it,
since its ranks `1..k` are strictly increasing. -/
theorem botDisplay_eq_reverse (t : RTable) (metric : String) (n : Nat) :
    botDisplay t metric n = ((botBlockRaw t metric n).enumFrom 1).reverse := by
  have hperm : (botDisplay t metric n).Perm ((botBlockRaw t metric n).enumFrom 1) :=
    List.mergeSort_perm _ rankLeDesc
  have hge : (botDisplay t metric n).Pairwise (fun a b => rankLeDesc a b = true) :=
    List.sorted_mergeSort rankLeDesc_trans rankLeDesc_total _
  have hL : (((botBlockRaw t metric n).enumFrom 1).map Prod.fst).Nodup :=
    List.pairwise_map.mpr
      ((pairwise_fst_lt_enumFrom 1 _).imp (fun h => Nat.ne_of_lt h))
  have hnodup : ((botDisplay t metric n).map Prod.fst).Nodup :=
    ((hperm.map Prod.fst).symm).nodup hL
  have hne : (botDisplay t metric n).Pairwise (fun a b => a.1 ≠ b.1) :=
    List.pairwise_map.mp hnodup
  have hstrict : (botDisplay t metric n).Pairwise (fun a b : Nat × RRow => b.1 < a.1) := by
    refine (hge.and hne).imp ?_
    rintro a b ⟨h1, h2⟩
    simp only [rankLeDesc, decide_eq_true_eq] at h1
    omega
  have hrev : (((botBlockRaw t metric n).enumFrom 1).reverse).Pairwise
      (fun a b : Nat × RRow => b.1 < a.1) := by
    rw [List.pairwise_reverse]
    exact pairwise_fst_lt_enumFrom 1 _
  exact @perm_pairwise_asymm_eq (Nat × RRow) (fun a b => b.1 < a.1)
    (fun a b h h' => absurd h' (Nat.lt_asymm h)) _ _
    (hperm.trans (List.reverse_perm _).symm) hstrict hrev

theorem topPart_map_sec (t : RTable) (metric : String) (n : Nat) (xm : List String) :
    (topPart t metric n xm).map ReportRow.sec =
      List.replicate (min n t.rows.length) "Top" := by
  rw [topPart, List.map_map]
  have h1 : (ReportRow.sec ∘ fun p : Nat × RRow =>
      mkRankedRow metric (extraColsOf t metric xm) "Top" p.1 p.2) =
      fun _ : Nat × RRow => "Top" := rfl
  rw [h1, List.map_const', List.enumFrom_length, topBlock_length]

theorem topPart_map_rank (t : RTable) (metric : String) (n : Nat) (xm : List String) :
    (topPart t metric n xm).map ReportRow.rank =
      (List.range' 1 (min n t.rows.length)).map some := by
  rw [topPart, List.map_map]
  have h1 : (ReportRow.rank ∘ fun p : Nat × RRow =>
      mkRankedRow metric (extraColsOf t metric xm) "Top" p.1 p.2) =
      (some ∘ Prod.fst : Nat × RRow → Option Nat) := rfl
  rw [h1, ← List.map_map, List.enumFrom_map_fst, topBlock_length]

theorem botPart_map_sec (t : RTable) (metric : String) (n : Nat) (xm : List String) :
    (botPart t metric n xm).map ReportRow.sec =
      List.replicate (min n t.rows.length) "Bottom" := by
  rw [botPart, List.map_map]
  have h1 : (ReportRow.sec ∘ fun p : Nat × RRow =>
      mkRankedRow metric (extraColsOf t metric xm) "Bottom" p.1 p.2) =
      fun _ : Nat × RRow => "Bottom" := rfl
  rw [h1, List.map_const', botDisplay_eq_reverse, List.length_reverse,
    List.enumFrom_length, botBlockRaw_length]

theorem botPart_map_rank (t : RTable) (metric : String) (n : Nat) (xm : List String) :
    (botPart t metric n xm).map ReportRow.rank =
      ((List.range' 1 (min n t.rows.length)).map some).reverse := by
  rw [botPart, botDisplay_eq_reverse, List.map_reverse, List.map_reverse, List.map_map]
  have h1 : (ReportRow.rank ∘ fun p : Nat × RRow =>
      mkRankedRow metric (extraColsOf t metric xm) "Bottom" p.1 p.2) =
      (some ∘ Prod.fst : Nat × RRow → Option Nat) := rfl
  rw [h1, ← List.map_map, List.enumFrom_map_fst, botBlockRaw_length]

theorem countP_lt_length_of_mem_not {α : Type} (p : α → Bool) :
    ∀ {l : List α} {a : α}, a ∈ l → p a = false → l.countP p < l.length := by
  intro l
  induction l with
  | nil => intro a ha _; exact absurd ha (List.not_mem_nil a)
  | cons x xs ih =>
    intro a ha hpa
    rw [List.countP_cons, List.length_cons]
    have hle : xs.countP p ≤ xs.length := List.countP_le_length p
    rcases List.mem_cons.mp ha with rfl | hmem
    · rw [hpa]
      simp only [Bool.false_eq_true, if_false]
      omega
    · have hlt := ih hmem hpa
      split <;> omega

theorem countP_or_le {α : Type} (p q : α → Bool) :
    ∀ l : List α, l.countP (fun x => p x || q x) ≤ l.countP p + l.countP q := by
  intro l
  induction l with
  | nil => simp
  | cons x xs ih =>
    rw [List.countP_cons, List.countP_cons, List.countP_cons]
    cases hp : p x <;> cases hq : q x <;> simp [hp, hq] <;> omega

/-- In a list sorted descending by `key`, any member of its first `n`
elements is strictly exceeded by fewer than `n` elements of the list. -/
theorem countP_gt_lt_of_mem_take {α : Type} (key : α → Rat) {s : List α} {n : Nat}
    (hs : s.Pairwise (fun x y => key y ≤ key x)) {a : α} (ha : a ∈ s.take n) :
    s.countP (fun x => decide (key a < key x)) < n := by
  have hsplit : s.countP (fun x => decide (key a < key x)) =
      (s.take n).countP (fun x => decide (key a < key x)) +
        (s.drop n).countP (fun x => decide (key a < key x)) := by
    conv_lhs => rw [← List.take_append_drop n s]
    rw [List.countP_append]
  have hs' := hs
  rw [← List.take_append_drop n s] at hs'
  have hcross := (List.pairwise_append.mp hs').2.2
  have hdrop : (s.drop n).countP (fun x => decide (key a < key x)) = 0 :=
    List.countP_eq_zero.mpr (fun y hy => by
      simp only [decide_eq_true_eq]
      exact not_lt.mpr (hcross a ha y hy))
  have htake : (s.take n).countP (fun x => decide (key a < key x)) <
      (s.take n).length :=
    countP_lt_length_of_mem_not _ ha (by simp)
  have hlen : (s.take n).length ≤ n := by
    rw [List.length_take]
    omega
  omega

/-- In a list sorted ascending by `key`, any member of its first `n`
elements strictly exceeds fewer than `n` elements of the list. -/
theorem countP_lt_lt_of_mem_take {α : Type} (key : α → Rat) {s : List α} {n : Nat}
    (hs : s.Pairwise (fun x y => key x ≤ key y)) {b : α} (hb : b ∈ s.take n) :
    s.countP (fun x => decide (key x < key b)) < n := by
  have hsplit : s.countP (fun x => decide (key x < key b)) =
      (s.take n).countP (fun x => decide (key x < key b)) +
        (s.drop n).countP (fun x => decide (key x < key b)) := by
    conv_lhs => rw [← List.take_append_drop n s]
    rw [List.countP_append]
  have hs' := hs
  rw [← List.take_append_drop n s] at hs'
  have hcross := (List.pairwise_append.mp hs').2.2
  have hdrop : (s.drop n).countP (fun x => decide (key x < key b)) = 0 :=
    List.countP_eq_zero.mpr (fun y hy => by
      simp only [decide_eq_true_eq]
      exact not_lt.mpr (hcross b hb y hy))
  have htake : (s.take n).countP (fun x => decide (key x < key b)) <
      (s.take n).length :=
    countP_lt_length_of_mem_not _ hb (by simp)
  have hlen : (s.take n).length ≤ n := by
    rw [List.length_take]
    omega
  omega

theorem lookup_map_self {κ β : Type} [DecidableEq κ] (f : κ → β) :
    ∀ (l : List κ) (c : κ), c ∈ l →
      ((l.map (fun x => (x, f x))).lookup c) = some (f c) := by
  intro l
  induction l with
  | nil => intro c hc; exact absurd hc (List.not_mem_nil c)
  | cons x xs ih =>
    intro c hc
    rcases List.mem_cons.mp hc with rfl | hm
    · simp [List.lookup]
    · by_cases hx : x = c
      · subst hx
        simp [List.lookup]
      · simp only [List.map_cons, List.lookup]
        rw [show (c == x) = false from beq_eq_false_iff_ne.mpr (fun h => hx h.symm)]
        exact ih c hm

/-! ## C2 — TOTAL row holds full-set sums -/

/-- C2 counterexample: on a one-row table whose metric value is `1/2` the
TOTAL row's `metric_value` is the rounded integer `0`, not the claimed exact
sum `1/2` — the builder rounds every `metric_value` cell to an integer. -/
theorem c2_counterexample :
    ((build_report (some rt1) "Total" 1 []).1.getLast?).map ReportRow.metric_value =
      some (some 0) ∧
    (rt1.rows.map (fun r => numVal r "Total")).sum = 1/2 ∧
    ((0 : Int) : Rat) ≠ 1/2 := by
  refine ⟨?_, by decide, by decide⟩
  rw [build_report_rows_eq rt1 "Total" 1 [] (by decide) (by decide)]
  show ((outRows rt1 "Total" 1 []).getLast?).map ReportRow.metric_value = some (some 0)
  rw [outRows, List.getLast?_concat]
  decide

/-- C2 (amended): for every non-empty filtered end-of-day table, metric
column and `n ∈ [1, 50000]`, the TOTAL row is the last report row and its
`metric_value` equals the sum of the metric over all rows of the filtered
set (missing/non-numeric cells coerced to 0) — not just the Top/Bottom
selections — rounded half-to-even to an integer; the TOTAL row is the same
for every choice of `n`; and each selected extra metric column on the TOTAL
row holds that column's full-set sum, likewise rounded. -/
theorem c2_total_row_full_set_sums (t : RTable) (metric : String) (n : Nat)
    (xm : List String) (hrows : t.rows ≠ []) (hcols : t.cols ≠ [])
    (hmet : metric ∈ t.cols) (hn1 : 1 ≤ n) (hn2 : n ≤ 50000) :
    (build_report (some t) metric n xm).1.getLast? = some (totalRowOf t metric xm) ∧
    (totalRowOf t metric xm).metric_value =
      some (rhe ((t.rows.map (fun r => numVal r metric)).sum)) ∧
    (∀ c ∈ extraColsOf t metric xm,
      (totalRowOf t metric xm).extras.lookup c =
        some (some (rhe ((t.rows.map (fun r => numVal r c)).sum)))) ∧
    (∀ m, 1 ≤ m → m ≤ 50000 →
      (build_report (some t) metric m xm).1.getLast? =
        (build_report (some t) metric n xm).1.getLast?) := by
  refine ⟨?_, rfl, ?_, ?_⟩
  · rw [build_report_rows_eq t metric n xm hrows hcols]
    show (outRows t metric n xm).getLast? = some (totalRowOf t metric xm)
    rw [outRows, List.getLast?_concat]
  · intro c hc
    exact lookup_map_self (fun c => some (rhe (colTotal t c))) _ c hc
  · intro m _ _
    rw [build_report_rows_eq t metric m xm hrows hcols,
      build_report_rows_eq t metric n xm hrows hcols]
    show (outRows t metric m xm).getLast? = (outRows t metric n xm).getLast?
    rw [outRows, outRows, List.getLast?_concat, List.getLast?_concat]

/-- Witness for the amended C2 at a concrete two-row table. -/
theorem c2_witness :
    (build_report (some rt2) "Total" 1 []).1.getLast? =
      some (totalRowOf rt2 "Total" []) ∧
    (totalRowOf rt2 "Total" []).metric_value =
      some (rhe ((rt2.rows.map (fun r => numVal r "Total")).sum)) ∧
    (∀ c ∈ extraColsOf rt2 "Total" [],
      (totalRowOf rt2 "Total" []).extras.lookup c =
        some (some (rhe ((rt2.rows.map (fun r => numVal r c)).sum)))) ∧
    (∀ m, 1 ≤ m → m ≤ 50000 →
      (build_report (some rt2) "Total" m []).1.getLast? =
        (build_report (some rt2) "Total" 1 []).1.getLast?) :=
  c2_total_row_full_set_sums rt2 "Total" 1 [] (by decide) (by decide) (by decide)
    (by decide) (by decide)

/-! ## C3 — Top and Bottom block sizes and separation -/

/-- C3: for every non-empty end-of-day table and valid `n`, the Top block
has exactly `min n rowCount` rows — the rows of greatest metric value, in
descending order, dominating every non-selected row, carrying ranks
`1..min n rowCount` — and the Bottom block likewise has `min n rowCount`
rows — the rows of smallest metric value, in ascending order, below every
non-selected row; the produced report contains exactly that many `"Top"`
rows and `"Bottom"` rows; and when `2 * n ≤ rowCount` every Top-block
metric value is at least every Bottom-block metric value. -/
theorem c3_top_bottom_blocks (t : RTable) (metric : String) (n : Nat) (xm : List String)
    (hrows : t.rows ≠ []) (hcols : t.cols ≠ []) (hn1 : 1 ≤ n) (hn2 : n ≤ 50000) :
    (topBlock t metric n).length = min n t.rows.length ∧
    (botBlockRaw t metric n).length = min n t.rows.length ∧
    (build_report (some t) metric n xm).1.countP (fun r => decide (r.sec = "Top")) =
      min n t.rows.length ∧
    (build_report (some t) metric n xm).1.countP (fun r => decide (r.sec = "Bottom")) =
      min n t.rows.length ∧
    (topBlock t metric n).Pairwise (fun a b => numVal b metric ≤ numVal a metric) ∧
    (∀ a ∈ topBlock t metric n, ∀ b ∈ (t.rows.mergeSort (descLe metric)).drop n,
      numVal b metric ≤ numVal a metric) ∧
    (botBlockRaw t metric n).Pairwise (fun a b => numVal a metric ≤ numVal b metric) ∧
    (∀ b ∈ botBlockRaw t metric n, ∀ a ∈ (t.rows.mergeSort (ascLe metric)).drop n,
      numVal b metric ≤ numVal a metric) ∧
    (topPart t metric n xm).map ReportRow.rank =
      (List.range' 1 (min n t.rows.length)).map some ∧
    (2 * n ≤ t.rows.length →
      ∀ a ∈ topBlock t metric n, ∀ b ∈ botBlockRaw t metric n,
        numVal b metric ≤ numVal a metric) := by
  have hsd := List.sorted_mergeSort (descLe_trans metric) (descLe_total metric) t.rows
  have hsa0 := List.sorted_mergeSort (ascLe_trans metric) (ascLe_total metric) t.rows
  refine ⟨topBlock_length t metric n, botBlockRaw_length t metric n, ?_, ?_, ?_, ?_, ?_,
    ?_, topPart_map_rank t metric n xm, ?_⟩
  · rw [build_report_rows_eq t metric n xm hrows hcols]
    show (outRows t metric n xm).countP (fun r => decide (r.sec = "Top")) = _
    rw [outRows, List.countP_append, List.countP_append]
    have h1 : (topPart t metric n xm).countP (fun r => decide (r.sec = "Top")) =
        (topPart t metric n xm).length :=
      List.countP_eq_length.mpr (fun r hr => by
        simp [sec_of_mem_topPart t metric n xm r hr])
    have h2 : (botPart t metric n xm).countP (fun r => decide (r.sec = "Top")) = 0 :=
      List.countP_eq_zero.mpr (fun r hr => by
        simp [sec_of_mem_botPart t metric n xm r hr])
    have h3 : ([totalRowOf t metric xm]).countP (fun r => decide (r.sec = "Top")) = 0 := by
      rw [List.countP_singleton]
      simp [totalRowOf]
    rw [h1, h2, h3, topPart]
    simp [List.enumFrom_length, topBlock_length]
  · rw [build_report_rows_eq t metric n xm hrows hcols]
    show (outRows t metric n xm).countP (fun r => decide (r.sec = "Bottom")) = _
    rw [outRows, List.countP_append, List.countP_append]
    have h1 : (topPart t metric n xm).countP (fun r => decide (r.sec = "Bottom")) = 0 :=
      List.countP_eq_zero.mpr (fun r hr => by
        simp [sec_of_mem_topPart t metric n xm r hr])
    have h2 : (botPart t metric n xm).countP (fun r => decide (r.sec = "Bottom")) =
        (botPart t metric n xm).length :=
      List.countP_eq_length.mpr (fun r hr => by
        simp [sec_of_mem_botPart t metric n xm r hr])
    have h3 : ([totalRowOf t metric xm]).countP (fun r => decide (r.sec = "Bottom")) = 0 := by
      rw [List.countP_singleton]
      simp [totalRowOf]
    rw [h1, h2, h3, botPart, botDisplay_eq_reverse]
    simp [List.enumFrom_length, botBlockRaw_length]
  · refine (List.Pairwise.sublist (List.take_sublist n _) hsd).imp ?_
    intro a b h
    simp only [descLe, decide_eq_true_eq] at h
    exact h
  · intro a ha b hb
    have hs' := hsd
    rw [← List.take_append_drop n (t.rows.mergeSort (descLe metric))] at hs'
    have hcross := (List.pairwise_append.mp hs').2.2
    rw [topBlock] at ha
    have := hcross a ha b hb
    simp only [descLe, decide_eq_true_eq] at this
    exact this
  · refine (List.Pairwise.sublist (List.take_sublist n _) hsa0).imp ?_
    intro a b h
    simp only [ascLe, decide_eq_true_eq] at h
    exact h
  · intro b hb a ha
    have hs' := hsa0
    rw [← List.take_append_drop n (t.rows.mergeSort (ascLe metric))] at hs'
    have hcross := (List.pairwise_append.mp hs').2.2
    rw [botBlockRaw] at hb
    have := hcross b hb a ha
    simp only [ascLe, decide_eq_true_eq] at this
    exact this
  · intro h2n a ha b hb
    by_contra hcon
    push_neg at hcon
    have hsa := List.sorted_mergeSort (ascLe_trans metric) (ascLe_total metric) t.rows
    have hsd' : (t.rows.mergeSort (descLe metric)).Pairwise
        (fun x y => numVal y metric ≤ numVal x metric) :=
      hsd.imp (fun h => by simp only [descLe, decide_eq_true_eq] at h; exact h)
    have hsa' : (t.rows.mergeSort (ascLe metric)).Pairwise
        (fun x y => numVal x metric ≤ numVal y metric) :=
      hsa.imp (fun h => by simp only [ascLe, decide_eq_true_eq] at h; exact h)
    rw [topBlock] at ha
    rw [botBlockRaw] at hb
    have h1 : (t.rows.mergeSort (descLe metric)).countP
        (fun x => decide (numVal a metric < numVal x metric)) < n :=
      countP_gt_lt_of_mem_take (fun r => numVal r metric) hsd' ha
    have h2 : (t.rows.mergeSort (ascLe metric)).countP
        (fun x => decide (numVal x metric < numVal b metric)) < n :=
      countP_lt_lt_of_mem_take (fun r => numVal r metric) hsa' hb
    have h1' : t.rows.countP (fun x => decide (numVal a metric < numVal x metric)) < n := by
      rw [← List.Perm.countP_eq _ (List.mergeSort_perm t.rows (descLe metric))]
      exact h1
    have h2' : t.rows.countP (fun x => decide (numVal x metric < numVal b metric)) < n := by
      rw [← List.Perm.countP_eq _ (List.mergeSort_perm t.rows (ascLe metric))]
      exact h2
    have hall : t.rows.countP (fun x =>
        decide (numVal a metric < numVal x metric) ||
        decide (numVal x metric < numVal b metric)) = t.rows.length :=
      List.countP_eq_length.mpr (fun x _ => by
        rw [Bool.or_eq_true, decide_eq_true_eq, decide_eq_true_eq]
        rcases lt_or_le (numVal a metric) (numVal x metric) with h | h
        · exact Or.inl h
        · exact Or.inr (lt_of_le_of_lt h hcon))
    have hsub := countP_or_le (fun x => decide (numVal a metric < numVal x metric))
      (fun x => decide (numVal x metric < numVal b metric)) t.rows
    omega

/-- Witness for C3 at a concrete two-row table with `n = 1`. -/
theorem c3_witness :
    (topBlock rt2 "Total" 1).length = min 1 rt2.rows.length ∧
    (botBlockRaw rt2 "Total" 1).length = min 1 rt2.rows.length ∧
    (build_report (some rt2) "Total" 1 []).1.countP (fun r => decide (r.sec = "Top")) =
      min 1 rt2.rows.length ∧
    (build_report (some rt2) "Total" 1 []).1.countP (fun r => decide (r.sec = "Bottom")) =
      min 1 rt2.rows.length ∧
    (topBlock rt2 "Total" 1).Pairwise (fun a b => numVal b "Total" ≤ numVal a "Total") ∧
    (∀ a ∈ topBlock rt2 "Total" 1, ∀ b ∈ (rt2.rows.mergeSort (descLe "Total")).drop 1,
      numVal b "Total" ≤ numVal a "Total") ∧
    (botBlockRaw rt2 "Total" 1).Pairwise (fun a b => numVal a "Total" ≤ numVal b "Total") ∧
    (∀ b ∈ botBlockRaw rt2 "Total" 1, ∀ a ∈ (rt2.rows.mergeSort (ascLe "Total")).drop 1,
      numVal b "Total" ≤ numVal a "Total") ∧
    (topPart rt2 "Total" 1 []).map ReportRow.rank =
      (List.range' 1 (min 1 rt2.rows.length)).map some ∧
    (2 * 1 ≤ rt2.rows.length →
      ∀ a ∈ topBlock rt2 "Total" 1, ∀ b ∈ botBlockRaw rt2 "Total" 1,
        numVal b "Total" ≤ numVal a "Total") :=
  c3_top_bottom_blocks rt2 "Total" 1 [] (by decide) (by decide) (by decide) (by decide)

/-! ## C4 — final row order -/

/-- C4: the produced report rows are exactly the Top rows with rank
ascending `1..k`, then the Bottom rows in display order with rank descending
`k..1` (so the Bottom row with rank 1 sits immediately before TOTAL), then
the single TOTAL row last, where `k = min n rowCount`. -/
theorem c4_report_row_order (t : RTable) (metric : String) (n : Nat) (xm : List String)
    (hrows : t.rows ≠ []) (hcols : t.cols ≠ []) :
    ∃ k, k = min n t.rows.length ∧
      (build_report (some t) metric n xm).1 =
        topPart t metric n xm ++ botPart t metric n xm ++ [totalRowOf t metric xm] ∧
      (topPart t metric n xm).map ReportRow.sec = List.replicate k "Top" ∧
      (topPart t metric n xm).map ReportRow.rank = (List.range' 1 k).map some ∧
      (botPart t metric n xm).map ReportRow.sec = List.replicate k "Bottom" ∧
      (botPart t metric n xm).map ReportRow.rank = ((List.range' 1 k).map some).reverse ∧
      (totalRowOf t metric xm).sec = "TOTAL" := by
  refine ⟨min n t.rows.length, rfl, ?_, topPart_map_sec t metric n xm,
    topPart_map_rank t metric n xm, botPart_map_sec t metric n xm,
    botPart_map_rank t metric n xm, rfl⟩
  rw [build_report_rows_eq t metric n xm hrows hcols]
  rfl

/-- Witness for C4 at a concrete two-row table with `n = 1`. -/
theorem c4_witness :
    ∃ k, k = min 1 rt2.rows.length ∧
      (build_report (some rt2) "Total" 1 []).1 =
        topPart rt2 "Total" 1 [] ++ botPart rt2 "Total" 1 [] ++
          [totalRowOf rt2 "Total" []] ∧
      (topPart rt2 "Total" 1 []).map ReportRow.sec = List.replicate k "Top" ∧
      (topPart rt2 "Total" 1 []).map ReportRow.rank = (List.range' 1 k).map some ∧
      (botPart rt2 "Total" 1 []).map ReportRow.sec = List.replicate k "Bottom" ∧
      (botPart rt2 "Total" 1 []).map ReportRow.rank =
        ((List.range' 1 k).map some).reverse ∧
      (totalRowOf rt2 "Total" []).sec = "TOTAL" :=
  c4_report_row_order rt2 "Total" 1 [] (by decide) (by decide)

/-! ## C5 — KPIs -/

/-- C5 counterexample: on a two-row table with metric values `3/4` each and
`n = 2`, the KPI `top_sum` is the truncated `int(1.5) = 1`, while the exact
sum of the Top block's metric values is `3/2` and the sum of the displayed
(rounded) Top `metric_value` cells is `1 + 1 = 2` — so `topSum` matches
neither reading of "the sum of the Top block's metric values". -/
theorem c5_counterexample :
    (build_report (some rt2) "Total" 2 []).2 = some (kpisOf rt2 "Total" 2) ∧
    (kpisOf rt2 "Total" 2).top_sum = 1 ∧
    ((topBlock rt2 "Total" 2).map (fun r => numVal r "Total")).sum = 3/2 ∧
    (((kpisOf rt2 "Total" 2).top_sum : Rat) ≠ 3/2) ∧
    (topPart rt2 "Total" 2 []).map ReportRow.metric_value = [some 1, some 1] ∧
    ((1 : Int) ≠ 1 + 1) := by
  have hdesc : rt2.rows.mergeSort (descLe "Total") = rt2.rows :=
    List.mergeSort_of_sorted (by decide)
  have hasc : rt2.rows.mergeSort (ascLe "Total") = rt2.rows :=
    List.mergeSort_of_sorted (by decide)
  have htop : topBlock rt2 "Total" 2 = rt2.rows := by
    rw [topBlock, hdesc]
    rfl
  have hbot : botBlockRaw rt2 "Total" 2 = rt2.rows := by
    rw [botBlockRaw, hasc]
    rfl
  have hk : kpisOf rt2 "Total" 2 = ⟨1, 1, 2, 2⟩ := by
    simp only [kpisOf, htop, hbot]
    decide
  refine ⟨?_, ?_, ?_, ?_, ?_, by decide⟩
  · rw [build_report_rows_eq rt2 "Total" 2 [] (by decide) (by decide)]
  · rw [hk]
  · rw [htop]
    decide
  · rw [hk]
    decide
  · rw [topPart, htop]
    decide

/-- C5 (amended): the KPIs satisfy: `topSum` is the truncation toward zero
(Python `int`) of the sum of the Top block's metric values, `bottomSum` the
same for the Bottom block, `totalSum` equals the full-set metric sum rounded
half-to-even — the TOTAL row's displayed value — and
`net = topSum + bottomSum`. -/
theorem c5_kpi_formulas (t : RTable) (metric : String) (n : Nat) (xm : List String)
    (hrows : t.rows ≠ []) (hcols : t.cols ≠ []) (hn1 : 1 ≤ n) (hn2 : n ≤ 50000) :
    (build_report (some t) metric n xm).2 = some (kpisOf t metric n) ∧
    (kpisOf t metric n).top_sum =
      truncQ (((topBlock t metric n).map (fun r => numVal r metric)).sum) ∧
    (kpisOf t metric n).bottom_sum =
      truncQ (((botBlockRaw t metric n).map (fun r => numVal r metric)).sum) ∧
    (kpisOf t metric n).total_sum = rhe ((t.rows.map (fun r => numVal r metric)).sum) ∧
    (totalRowOf t metric xm).metric_value = some ((kpisOf t metric n).total_sum) ∧
    (build_report (some t) metric n xm).1.getLast? = some (totalRowOf t metric xm) ∧
    (kpisOf t metric n).net =
      (kpisOf t metric n).top_sum + (kpisOf t metric n).bottom_sum := by
  have hlenpos : 0 < t.rows.length := List.length_pos.mpr hrows
  have htne : ¬((topBlock t metric n).isEmpty = true) := by
    rw [List.isEmpty_iff]
    intro h
    have hl := topBlock_length t metric n
    rw [h] at hl
    simp only [List.length_nil] at hl
    omega
  have hbne : ¬((botBlockRaw t metric n).isEmpty = true) := by
    rw [List.isEmpty_iff]
    intro h
    have hl := botBlockRaw_length t metric n
    rw [h] at hl
    simp only [List.length_nil] at hl
    omega
  refine ⟨?_, ?_, ?_, rfl, rfl, ?_, ?_⟩
  · rw [build_report_rows_eq t metric n xm hrows hcols]
  · show (if (topBlock t metric n).isEmpty then 0
      else truncQ (((topBlock t metric n).map (fun r => numVal r metric)).sum)) = _
    rw [if_neg htne]
  · show (if (botBlockRaw t metric n).isEmpty then 0
      else truncQ (((botBlockRaw t metric n).map (fun r => numVal r metric)).sum)) = _
    rw [if_neg hbne]
  · rw [build_report_rows_eq t metric n xm hrows hcols]
    show (outRows t metric n xm).getLast? = some (totalRowOf t metric xm)
    rw [outRows, List.getLast?_concat]
  · rfl

/-- Witness for the amended C5 at a concrete two-row table with `n = 1`. -/
theorem c5_witness :
    (build_report (some rt2) "Total" 1 []).2 = some (kpisOf rt2 "Total" 1) ∧
    (kpisOf rt2 "Total" 1).top_sum =
      truncQ (((topBlock rt2 "Total" 1).map (fun r => numVal r "Total")).sum) ∧
    (kpisOf rt2 "Total" 1).bottom_sum =
      truncQ (((botBlockRaw rt2 "Total" 1).map (fun r => numVal r "Total")).sum) ∧
    (kpisOf rt2 "Total" 1).total_sum =
      rhe ((rt2.rows.map (fun r => numVal r "Total")).sum) ∧
    (totalRowOf rt2 "Total" []).metric_value = some ((kpisOf rt2 "Total" 1).total_sum) ∧
    (build_report (some rt2) "Total" 1 []).1.getLast? =
      some (totalRowOf rt2 "Total" []) ∧
    (kpisOf rt2 "Total" 1).net =
      (kpisOf rt2 "Total" 1).top_sum + (kpisOf rt2 "Total" 1).bottom_sum :=
  c5_kpi_formulas rt2 "Total" 1 [] (by decide) (by decide) (by decide) (by decide)

end Centaurus
